import Mathlib

/-!
# Verification of `covidsimulation/plot.py`

A shallow embedding of the calendar-aligned series container (`Series`) and the
chart composition function (`plot`) of `covidsimulation/plot.py`, together with
theorems checking the natural-language specification against the code.

Modelling conventions:
* calendar dates (`datetime.date`) are proleptic day numbers (`Int`);
  `date + timedelta(days=i)` is `+ i` and `(d2 - d1).days` is `d2 - d1`;
* numeric values carried by a series are modelled as `Rat` (the code never
  computes with them, it only copies, slices, reverses and concatenates, and
  uses the literal `0.0` as the forward-fill default);
* Python exceptions are an explicit error type `PyErr`; a fallible operation
  returns `Except PyErr α`.  The spec's `ConfigurationError` is Python's
  `ValueError` (with its message), the spec's `InvariantError` is Python's
  `AssertionError`, and the spec's `ParseError` is a failed date parse;
* `np.ndarray` buffers are modelled as lists; the aliasing claims use an
  explicit store (`List (List Val)`) further below.
-/

/-- Values carried by a series (`numpy` floats in the code; never computed
with, only moved around, so modelled as rationals). -/
abbrev Val := Rat

/-- Python exceptions raised by the embedded code. -/
inductive PyErr where
  /-- `ValueError`, with its message (the spec's `ConfigurationError`, and
  `np.stack`'s shape-mismatch error). -/
  | valueError (msg : String)
  /-- `AssertionError` from a failed `assert` (the spec's `InvariantError`). -/
  | assertionError
  /-- `TypeError` (e.g. iterating `None`). -/
  | typeError
  /-- `IndexError` from an out-of-range index. -/
  | indexError
  /-- `AttributeError` from accessing a missing attribute. -/
  | attributeError
  /-- A failed ISO-date parse (the spec's `ParseError`). -/
  | parseError
deriving DecidableEq, Repr

/-- The `start_date` argument of `Series.__init__`: an ISO string or a date. -/
inductive SDate where
  | str (s : String) : SDate
  | date (d : Int) : SDate
deriving DecidableEq, Repr

/-- Python truthiness of a `start_date` value: the empty string is falsy, a
`datetime.date` is always truthy. -/
def SDate.truthy : SDate → Bool
  | .str s => s ≠ ""
  | .date _ => true

/-- Python truthiness of `start_date` including `None`. -/
def truthyOpt : Option SDate → Bool
  | none => false
  | some s => s.truthy

/-- Number of days in a month of the proleptic Gregorian calendar. -/
def daysInMonth (y : Int) (m : Nat) : Nat :=
  if m = 2 then
    if y % 4 = 0 ∧ (y % 100 ≠ 0 ∨ y % 400 = 0) then 29 else 28
  else if m = 4 ∨ m = 6 ∨ m = 9 ∨ m = 11 then 30
  else 31

/-- Day number of a Gregorian civil date (days since 1970-01-01). -/
def daysFromCivil (y : Int) (m : Nat) (d : Nat) : Int :=
  let yp : Int := if m ≤ 2 then y - 1 else y
  let era : Int := (if 0 ≤ yp then yp else yp - 399) / 400
  let yoe : Int := yp - era * 400
  let mp : Int := if 2 < m then (m : Int) - 3 else (m : Int) + 9
  let doy : Int := (153 * mp + 2) / 5 + (d : Int) - 1
  let doe : Int := yoe * 365 + yoe / 4 - yoe / 100 + doy
  era * 146097 + doe - 719468

/-- `True` iff the string is a fixed-width decimal numeral. -/
def allDigits (s : String) : Bool :=
  s.length > 0 && s.toList.all Char.isDigit

/-- Modelled from the spec: `get_date_from_isoformat` lives in
`covidsimulation/utils.py`, which is not among the provided sources.  Per the
spec (§6), it consumes an ISO-8601 `YYYY-MM-DD` string and returns a calendar
date; malformed input fails with a `ParseError`. -/
def get_date_from_isoformat (s : String) : Except PyErr Int :=
  match s.splitOn "-" with
  | [ys, ms, ds] =>
    if allDigits ys ∧ allDigits ms ∧ allDigits ds
        ∧ ys.length = 4 ∧ ms.length = 2 ∧ ds.length = 2 then
      let y : Int := (ys.toNat!: Int)
      let m : Nat := ms.toNat!
      let d : Nat := ds.toNat!
      if 1 ≤ m ∧ m ≤ 12 ∧ 1 ≤ d ∧ d ≤ daysInMonth y m then
        .ok (daysFromCivil y m d)
      else .error .parseError
    else .error .parseError
  | _ => .error .parseError

/-- The dense calendar series: `self._x` (dates) and `self.y` (values).
`self.x` only re-renders the same dates as `datetime` objects for plotly and
is identified with `_x` here. -/
structure Series where
  _x : List Int
  y : List Val
deriving DecidableEq, Repr

/-- `list(x) == sorted(list(x))`: a list equals its ascending stable sort iff
it is non-decreasing. -/
def isSortedAsc : List Int → Bool
  | [] => true
  | [_] => true
  | a :: b :: rest => decide (a ≤ b) && isSortedAsc (b :: rest)

/-- `dict.get(d, dflt)` over the dict built by `map_x_to_y` (later insertions
overwrite earlier ones, hence the last matching pair wins). -/
def dictGet : List (Int × Val) → Int → Val → Val
  | [], _, dflt => dflt
  | p :: ps, d, dflt => dictGet ps d (if p.1 = d then p.2 else dflt)

/-- `map_x_to_y(x, y)`: asserts `len(x) == len(y)` and builds the
date-to-value dict, represented by the insertion-ordered pair list. -/
def map_x_to_y (x : List Int) (y : List Val) : Except PyErr (List (Int × Val)) :=
  if x.length = y.length then .ok (x.zip y) else .error .assertionError

/-- The forward-fill loop of `Series.__init__`: walk the dense days carrying
the last known value. -/
def densifyGo (ps : List (Int × Val)) : Val → List Int → List Val
  | _, [] => []
  | last, d :: ds => dictGet ps d last :: densifyGo ps (dictGet ps d last) ds

/-- `[start_date + timedelta(days=i) for i in range(num_elements)]`. -/
def dateRange (start : Int) (num : Nat) : List Int :=
  (List.range num).map (fun i : Nat => start + (i : Int))

/-- The tail of `Series.__init__` once `start_date` and `num_elements` are
known: build `self._x`, densify if the span exceeds `len(y)`, store `y`
(defensively copied — copying is the identity on values here; the aliasing
content of the copy is modelled separately with an explicit store). -/
def mkSeries (y : List Val) (x : Option (List Int)) (start : Int) (num : Nat) :
    Except PyErr Series :=
  let xd := dateRange start num
  if y.length < num then
    match x with
    | none => .error .typeError
    | some xs =>
      match map_x_to_y xs y with
      | .error e => .error e
      | .ok ps => .ok ⟨xd, densifyGo ps 0 xd⟩
  else .ok ⟨xd, y⟩

/-- `Series.__init__(y, x, start_date)`.  The list elements of `x` are already
calendar dates (`make_date_sequence` converts strings and datetimes to dates
and is the identity on dates). -/
def seriesInit (y : List Val) (x : Option (List Int)) (sd : Option SDate) :
    Except PyErr Series :=
  if x = none ∧ sd = none then
    .error (.valueError "Either x or start_date must be specified")
  else if truthyOpt sd = false then
    match x with
    | none => .error .typeError
    | some xs =>
      if isSortedAsc xs then
        match xs with
        | [] => .error .indexError
        | x0 :: xrest =>
          let xe := (x0 :: xrest).getLastD 0
          mkSeries y (some (x0 :: xrest)) x0 (xe - x0 + 1).toNat
      else .error .assertionError
  else
    match sd with
    | some (.str s) =>
      match get_date_from_isoformat s with
      | .error e => .error e
      | .ok d => mkSeries y x d y.length
    | some (.date d) => mkSeries y x d y.length
    | none => .error .typeError

/-- An index argument accepted by `Series.get_index`: a raw integer, an ISO
date string, or a calendar date. -/
inductive XVal where
  | int (i : Int) : XVal
  | date (d : Int) : XVal
  | str (s : String) : XVal
deriving DecidableEq, Repr

/-- Python truthiness of an `XVal` (`0` and `""` are falsy). -/
def XVal.truthy : XVal → Bool
  | .int i => i ≠ 0
  | .date _ => true
  | .str s => s ≠ ""

/-- `start or 0` in `Series.trim`. -/
def orZero : Option XVal → XVal
  | none => .int 0
  | some v => if v.truthy then v else .int 0

/-- `self.start_date`, i.e. `self._x[0]` (raises `IndexError` on an empty
series). -/
def Series.start_dateE (s : Series) : Except PyErr Int :=
  match s._x with
  | [] => .error .indexError
  | d :: _ => .ok d

/-- The date branch of `Series.get_index`:
`min(max((x_value - self.start_date).days, 0), len(self._x) - 1)`. -/
def Series.get_index_date (s : Series) (d : Int) : Except PyErr Int :=
  match s._x with
  | [] => .error .indexError
  | x0 :: _ => .ok (min (max (d - x0) 0) ((s._x.length : Int) - 1))

/-- `Series.get_index`: strings are parsed to dates; dates are clamped into
the series' range; integers pass through unchanged. -/
def Series.get_index (s : Series) (v : XVal) : Except PyErr Int :=
  match v with
  | .str st =>
    match get_date_from_isoformat st with
    | .error e => .error e
    | .ok d => s.get_index_date d
  | .date d => s.get_index_date d
  | .int i => .ok i

/-- Python sequence indexing `l[i]` with negative-index wraparound;
out-of-range raises `IndexError`. -/
def pyIndex (l : List α) (i : Int) : Except PyErr α :=
  let j : Int := if i < 0 then i + l.length else i
  if h : 0 ≤ j ∧ j.toNat < l.length then .ok (l.get ⟨j.toNat, h.2⟩)
  else .error .indexError

/-- `Series.__getitem__`: `self.y[self.get_index(item)]`. -/
def Series.getitem (s : Series) (v : XVal) : Except PyErr Val :=
  match s.get_index v with
  | .error e => .error e
  | .ok i => pyIndex s.y i

/-- Normalize one bound of a Python slice `l[i:j]` for a sequence of length
`n`: negative indices count from the end, then both ends clamp to `[0, n]`. -/
def sliceIndex (n : Nat) (i : Int) : Nat :=
  min (if i < 0 then i + n else i).toNat n

/-- Python slicing `l[i:j]` (never raises). -/
def pySlice (l : List α) (i j : Int) : List α :=
  (l.take (sliceIndex l.length j)).drop (sliceIndex l.length i)

/-- `get_stop_index(series, stop)`:
`min(get_index(stop) + 1 if stop is not None else len(series), len(series))`. -/
def get_stop_index (s : Series) (stop : Option XVal) : Except PyErr Int :=
  match stop with
  | none => .ok (s.y.length : Int)
  | some v =>
    match s.get_index v with
    | .error e => .error e
    | .ok i => .ok (min (i + 1) ((s.y.length : Int)))

/-- `Series.trim(start, stop)`: slice both buffers and rebuild a `Series`
from the sliced explicit dates. -/
def Series.trim (s : Series) (start stop : Option XVal) : Except PyErr Series :=
  match s.get_index (orZero start) with
  | .error e => .error e
  | .ok si =>
    match get_stop_index s stop with
    | .error e => .error e
    | .ok sti => seriesInit (pySlice s.y si sti) (some (pySlice s._x si sti)) none

/-- `PLOT_COLORS`: the fixed palette of (solid, translucent) pairs. -/
def PLOT_COLORS : List (String × String) :=
  [ ("rgba(0,0,255,1)", "rgba(0,0,255,0.25)")
  , ("rgba(255,0,0,1)", "rgba(255,0,0,0.25)")
  , ("rgba(0,0,0,1)", "rgba(0,0,0,0.25)")
  , ("rgba(128,0,240,1)", "rgba(128,0,240,0.25)")
  , ("rgba(240,128,0,1)", "rgba(240,128,0,0.25)")
  , ("rgba(0,128,240,1)", "rgba(0,128,240,0.25)")
  , ("rgba(0,255,0,1)", "rgba(0,255,0,0.25)") ]

/-- A draw directive handed to the renderer (`fig.add_trace`). -/
inductive Trace where
  /-- A line trace: `go.Scatter(x, y, line_color, name)`. -/
  | line (x : List Int) (y : List Val) (line_color : String) (name : String)
  /-- A filled band trace: `go.Scatter(x, y, fill='toself', fillcolor,
  line_color, showlegend, name)`. -/
  | fill (x : List Int) (y : List Val) (fillcolor : String) (line_color : String)
      (showlegend : Bool) (name : Option String)
deriving DecidableEq, Repr

/-- Whether a trace is a filled band. -/
def Trace.isFill : Trace → Bool
  | .fill _ _ _ _ _ _ => true
  | .line _ _ _ _ => false

/-- Whether a trace is a line. -/
def Trace.isLine : Trace → Bool
  | .fill _ _ _ _ _ _ => false
  | .line _ _ _ _ => true

/-- `concat_seq` on two `np.ndarray`s:
`np.stack([s1, s2]).reshape(len(s1) + len(s2))` — `np.stack` demands equal
lengths (else `ValueError`) and the reshape yields plain concatenation. -/
def concat_seq (s1 s2 : List α) : Except PyErr (List α) :=
  if s1.length = s2.length then .ok (s1 ++ s2)
  else .error (.valueError "all input arrays must have the same shape")

/-- `plot_line(fig, series, pop_name, color_index)`: emits one line trace
coloured with `PLOT_COLORS[color_index][0]`. -/
def plot_line (s : Series) (pop_name : String) (ci : Int) : Except PyErr Trace :=
  match pyIndex PLOT_COLORS ci with
  | .error e => .error e
  | .ok c => .ok (.line s._x s.y c.1 pop_name)

/-- `plot_confidence_range(fig, series_low, series_high, legend, color_index)`:
asserts equal lengths, then emits the closed band polygon (upper boundary
forward, lower boundary backward). -/
def plot_confidence_range (s_low s_high : Series) (legend : Option String)
    (ci : Int) : Except PyErr Trace :=
  if s_low._x.length = s_high._x.length then
    match concat_seq s_high._x s_low._x.reverse with
    | .error e => .error e
    | .ok xcat =>
      match concat_seq s_high.y s_low.y.reverse with
      | .error e => .error e
      | .ok ycat =>
        match pyIndex PLOT_COLORS ci with
        | .error e => .error e
        | .ok c => .ok (.fill xcat ycat c.2 c.2 legend.isSome legend)
  else .error .assertionError

/-- One element of `pop_stats_name_tuples`: a bare `Series` or a collection
of series. -/
inductive PlotData where
  | series (s : Series) : PlotData
  | coll (l : List Series) : PlotData
deriving DecidableEq, Repr

/-- A deferred draw call (`functools.partial` closure) collected by `plot`
into `area_fns` / `line_fns`; its arguments (the trimmed series) were
evaluated eagerly when the closure was built. -/
inductive DeferredTrace where
  | lineFn (s : Series) (name : String) (ci : Int) : DeferredTrace
  | areaFn (low high : Series) (legend : Option String) (ci : Int) : DeferredTrace
deriving DecidableEq, Repr

/-- Execute a deferred draw call. -/
def runDeferred : DeferredTrace → Except PyErr Trace
  | .lineFn s n ci => plot_line s n ci
  | .areaFn lo hi lg ci => plot_confidence_range lo hi lg ci

/-- Execute deferred draw calls in order, collecting the emitted traces. -/
def runAll : List DeferredTrace → Except PyErr (List Trace)
  | [] => .ok []
  | f :: fs =>
    match runDeferred f with
    | .error e => .error e
    | .ok t =>
      match runAll fs with
      | .error e => .error e
      | .ok ts => .ok (t :: ts)

/-- The loop body of `plot` for one `(data, pop_name)` item: classify by
shape, trim, and append to the two deferred lists.  For a bare `Series`,
`data[0]` is `self.y[0]` — a scalar — so the subsequent `.trim` raises
`AttributeError` (a `numpy.float64` has no attribute `trim`). -/
def itemFns (start stop : Option XVal) (show_ci : Bool) (ci : Int) :
    PlotData × String → Except PyErr (List DeferredTrace × List DeferredTrace)
  | (.series s, _) =>
    match s.getitem (.int 0) with
    | .error e => .error e
    | .ok _ => .error .attributeError
  | (.coll l, pop_name) =>
    if l.length = 1 then
      match pyIndex l 0 with
      | .error e => .error e
      | .ok s0 =>
        match s0.trim start stop with
        | .error e => .error e
        | .ok t => .ok ([], [.lineFn t pop_name ci])
    else if l.length = 3 then
      if show_ci then
        match pyIndex l 1 with
        | .error e => .error e
        | .ok s1 =>
          match s1.trim start stop with
          | .error e => .error e
          | .ok t1 =>
            match pyIndex l 2 with
            | .error e => .error e
            | .ok s2 =>
              match s2.trim start stop with
              | .error e => .error e
              | .ok t2 =>
                match pyIndex l 0 with
                | .error e => .error e
                | .ok s0 =>
                  match s0.trim start stop with
                  | .error e => .error e
                  | .ok t0 =>
                    .ok ([.areaFn t1 t2 none ci], [.lineFn t0 pop_name ci])
      else
        match pyIndex l 0 with
        | .error e => .error e
        | .ok s0 =>
          match s0.trim start stop with
          | .error e => .error e
          | .ok t0 => .ok ([], [.lineFn t0 pop_name ci])
    else if l.length = 2 then
      match pyIndex l 0 with
      | .error e => .error e
      | .ok s0 =>
        match s0.trim start stop with
        | .error e => .error e
        | .ok t0 =>
          match pyIndex l 1 with
          | .error e => .error e
          | .ok s1 =>
            match s1.trim start stop with
            | .error e => .error e
            | .ok t1 => .ok ([.areaFn t0 t1 (some pop_name) ci], [])
    else .error (.valueError "Invalid number of elements to plot")

/-- The colour index of the item at position `idx`:
`idx % len(PLOT_COLORS)`, globally overridden by `cindex` when given. -/
def ciOf (cindex : Option Int) (idx : Nat) : Int :=
  match cindex with
  | some c => c
  | none => ((idx % PLOT_COLORS.length : Nat) : Int)

/-- The collection loop of `plot`: enumerate the items, classify each, and
accumulate the `area_fns` and `line_fns` lists in input order. -/
def collectFns (start stop : Option XVal) (show_ci : Bool) (cindex : Option Int) :
    Nat → List (PlotData × String) →
    Except PyErr (List DeferredTrace × List DeferredTrace)
  | _, [] => .ok ([], [])
  | idx, item :: rest =>
    match itemFns start stop show_ci (ciOf cindex idx) item with
    | .error e => .error e
    | .ok (afs, lfs) =>
      match collectFns start stop show_ci cindex (idx + 1) rest with
      | .error e => .error e
      | .ok (ar, lr) => .ok (afs ++ ar, lfs ++ lr)

/-- The figure produced by `plot`: the emitted traces in order, plus the
layout directives. -/
structure Fig where
  traces : List Trace
  title : String
  yaxis_range : Option (Val × Val)
  yaxis_log : Bool
  width : Option Nat
  showlegend : Bool
deriving DecidableEq, Repr

/-- `plot(pop_stats_name_tuples, title, log_scale, size, stop, start, ymax,
cindex, show_confidence_interval)`: collect the deferred draw calls, execute
all fills then all lines, and finalize the layout (`if ymax:` and `if size:`
are truthiness tests, so `0` behaves like absent). -/
def plot (items : List (PlotData × String)) (title : String)
    (log_scale : Bool) (size : Option Nat) (stop : Option XVal)
    (start : Option XVal) (ymax : Option Val) (cindex : Option Int)
    (show_confidence_interval : Bool) : Except PyErr Fig :=
  match collectFns start stop show_confidence_interval cindex 0 items with
  | .error e => .error e
  | .ok (areas, lines) =>
    match runAll areas with
    | .error e => .error e
    | .ok ats =>
      match runAll lines with
      | .error e => .error e
      | .ok lts =>
        .ok { traces := ats ++ lts
            , title := title
            , yaxis_range :=
                match ymax with
                | some m => if m ≠ 0 then some (if log_scale then 1 else 0, m) else none
                | none => none
            , yaxis_log := log_scale
            , width :=
                match size with
                | some n => if n ≠ 0 then some n else none
                | none => none
            , showlegend := decide (items.length ≠ 1) }

/-! ## Specification-side definitions

These follow the spec's words, to be compared with the code-derived
definitions above. -/

/-- The calendar span of a sorted explicit date list:
`(max_date - min_date).days + 1`. -/
def spanOf (xs : List Int) : Nat := (xs.getLastD 0 - xs.headD 0 + 1).toNat

/-- Proof-side fold mirroring `dictGet` with `≤` in place of `=`: the value of
the last pair dated at or before `d`, else the default. -/
def lastK : List (Int × Val) → Int → Val → Val
  | [], _, dflt => dflt
  | p :: ps, d, dflt => lastK ps d (if p.1 ≤ d then p.2 else dflt)

/-- From the spec (§3): the forward-fill value of day `d` for a sparse input —
the value of the most recent input day at or before `d`, or `0.0` if no such
day exists. -/
def ffillValue (ps : List (Int × Val)) (d : Int) : Val :=
  ((((ps.filter (fun p => decide (p.1 ≤ d)))).getLast?).map Prod.snd).getD 0

/-- From the spec (§4.3): the band trace contributed by one plot item, if any
— a two-series item yields a labelled band, a three-series item yields an
unlabelled band unless the confidence interval is suppressed. -/
def specFillOf (start stop : Option XVal) (show_ci : Bool) (ci : Int) :
    PlotData × String → Except PyErr (List Trace)
  | (.series _, _) => .ok []
  | (.coll l, pop_name) =>
    if l.length = 2 then
      match pyIndex l 0 with
      | .error e => .error e
      | .ok s0 =>
        match s0.trim start stop with
        | .error e => .error e
        | .ok t0 =>
          match pyIndex l 1 with
          | .error e => .error e
          | .ok s1 =>
            match s1.trim start stop with
            | .error e => .error e
            | .ok t1 =>
              match plot_confidence_range t0 t1 (some pop_name) ci with
              | .error e => .error e
              | .ok t => .ok [t]
    else if l.length = 3 ∧ show_ci then
      match pyIndex l 1 with
      | .error e => .error e
      | .ok s1 =>
        match s1.trim start stop with
        | .error e => .error e
        | .ok t1 =>
          match pyIndex l 2 with
          | .error e => .error e
          | .ok s2 =>
            match s2.trim start stop with
            | .error e => .error e
            | .ok t2 =>
              match plot_confidence_range t1 t2 none ci with
              | .error e => .error e
              | .ok t => .ok [t]
    else .ok []

/-- From the spec (§4.3): the line trace contributed by one plot item, if any
— a single-series item (or the central series of a three-series item) yields
one labelled line. -/
def specLineOf (start stop : Option XVal) (ci : Int) :
    PlotData × String → Except PyErr (List Trace)
  | (.series s, pop_name) =>
    match s.trim start stop with
    | .error e => .error e
    | .ok t =>
      match plot_line t pop_name ci with
      | .error e => .error e
      | .ok tr => .ok [tr]
  | (.coll l, pop_name) =>
    if l.length = 1 ∨ l.length = 3 then
      match pyIndex l 0 with
      | .error e => .error e
      | .ok s0 =>
        match s0.trim start stop with
        | .error e => .error e
        | .ok t0 =>
          match plot_line t0 pop_name ci with
          | .error e => .error e
          | .ok tr => .ok [tr]
    else .ok []

/-- From the spec (§4.3): all band traces, one item at a time in input
order. -/
def specFills (start stop : Option XVal) (show_ci : Bool) (cindex : Option Int) :
    Nat → List (PlotData × String) → Except PyErr (List Trace)
  | _, [] => .ok []
  | idx, item :: rest =>
    match specFillOf start stop show_ci (ciOf cindex idx) item with
    | .error e => .error e
    | .ok ts =>
      match specFills start stop show_ci cindex (idx + 1) rest with
      | .error e => .error e
      | .ok rs => .ok (ts ++ rs)

/-- From the spec (§4.3): all line traces, one item at a time in input
order. -/
def specLines (start stop : Option XVal) (cindex : Option Int) :
    Nat → List (PlotData × String) → Except PyErr (List Trace)
  | _, [] => .ok []
  | idx, item :: rest =>
    match specLineOf start stop (ciOf cindex idx) item with
    | .error e => .error e
    | .ok ts =>
      match specLines start stop cindex (idx + 1) rest with
      | .error e => .error e
      | .ok rs => .ok (ts ++ rs)

/-! ## Store model for the aliasing claims

Python `np.ndarray` value buffers live in a store of numbered buffers; an
array object is a reference (its buffer number).  `deepcopy` / `np.array`
allocate a fresh buffer holding the same values. -/

/-- Read buffer `r` of the store. -/
def heapRead (h : List (List Val)) (r : Nat) : List Val := h.getD r []

/-- Mutate buffer `r` of the store in place (e.g. `arr[:] = v`). -/
def heapWrite (h : List (List Val)) (r : Nat) (v : List Val) : List (List Val) :=
  h.set r v

/-- A `Series` whose value buffer lives in the store (`_x` is rebuilt fresh
from scratch by `__init__`, so it is kept as a pure value). -/
structure SeriesH where
  xs : List Int
  yref : Nat
deriving DecidableEq, Repr

/-- `Series.__init__` against the store: read the caller's buffer, run the
pure construction, and store `self.y` in a fresh buffer (the
`deepcopy(y)` / `np.array(y)` of the code). -/
def seriesInitH (h : List (List Val)) (yr : Nat) (x : Option (List Int))
    (sd : Option SDate) : Except PyErr (SeriesH × List (List Val)) :=
  match seriesInit (heapRead h yr) x sd with
  | .error e => .error e
  | .ok s => .ok (⟨s._x, h.length⟩, h ++ [s.y])

/-- `Series.trim` against the store: slice (numpy slices are views into the
same buffer, so reading suffices) and rebuild, which allocates afresh. -/
def trimH (h : List (List Val)) (sh : SeriesH) (start stop : Option XVal) :
    Except PyErr (SeriesH × List (List Val)) :=
  match Series.trim ⟨sh.xs, heapRead h sh.yref⟩ start stop with
  | .error e => .error e
  | .ok s => .ok (⟨s._x, h.length⟩, h ++ [s.y])

/-! ## Helper lemmas -/

theorem isSortedAsc_iff : ∀ xs : List Int,
    isSortedAsc xs = true ↔ List.Chain' (· ≤ ·) xs
  | [] => by simp [isSortedAsc]
  | [a] => by simp [isSortedAsc]
  | a :: b :: rest => by
    rw [isSortedAsc, Bool.and_eq_true, decide_eq_true_eq,
      isSortedAsc_iff (b :: rest), List.chain'_cons]

theorem get_date_from_isoformat_ne_valueError (s : String) (m : String) :
    get_date_from_isoformat s ≠ .error (.valueError m) := by
  unfold get_date_from_isoformat
  split <;> try simp
  split <;> try simp
  split <;> simp

theorem mkSeries_ne_valueError (y : List Val) (x : Option (List Int)) (s : Int)
    (n : Nat) (m : String) : mkSeries y x s n ≠ .error (.valueError m) := by
  unfold mkSeries
  split
  · cases x with
    | none => simp
    | some xs =>
      unfold map_x_to_y
      by_cases hxy : xs.length = y.length <;> simp [hxy]
  · simp

/-! ## Claim C6 -/

/-- C6: constructing a series with neither an explicit x-sequence nor a
`start_date` fails with the `ConfigurationError`
(`ValueError('Either x or start_date must be specified')`), and construction
with at least one of them present never produces this error. -/
theorem seriesInit_config_error_iff (y : List Val) (x : Option (List Int))
    (sd : Option SDate) :
    seriesInit y x sd = .error (.valueError "Either x or start_date must be specified")
      ↔ (x = none ∧ sd = none) := by
  constructor
  · intro h
    unfold seriesInit at h
    split at h
    · assumption
    · split at h
      · split at h
        · simp at h
        · split at h
          · split at h
            · simp at h
            · exact absurd h (mkSeries_ne_valueError _ _ _ _ _)
          · simp at h
      · split at h
        · split at h
          · next e heq =>
            simp only [Except.error.injEq] at h
            rw [h] at heq
            exact absurd heq (get_date_from_isoformat_ne_valueError _ _)
          · exact absurd h (mkSeries_ne_valueError _ _ _ _ _)
        · exact absurd h (mkSeries_ne_valueError _ _ _ _ _)
        · simp at h
  · rintro ⟨rfl, rfl⟩
    rfl

/-! ## Claim C10 -/

/-- C10: constructing a series with both an explicit x-sequence and a truthy
`start_date` (here: a calendar date, which is always truthy) ignores the
x-sequence entirely — the result has exactly `len(values)` consecutive dates
starting at `start_date` and the input values unchanged, with no
densification and no sortedness check on the supplied x-sequence (which may
even be unsorted, as the universal quantification over `x` shows). -/
theorem seriesInit_start_date_ignores_x (y : List Val) (x : Option (List Int))
    (d : Int) :
    seriesInit y x (some (.date d)) = .ok ⟨dateRange d y.length, y⟩ := by
  unfold seriesInit
  rw [if_neg (by simp)]
  have h2 : truthyOpt (some (.date d)) = true := rfl
  rw [h2]
  simp only [Bool.true_eq_false, if_false]
  unfold mkSeries
  simp

/-! ## Claim C8 -/

/-- C8: when a series is constructed from an explicit date sequence (no
`start_date`), a sequence containing a date strictly earlier than a preceding
one fails the sortedness `assert` with an `InvariantError`
(`AssertionError`). -/
theorem seriesInit_unsorted_asserts (y : List Val) (xs : List Int) (i j : Nat)
    (hj : j < xs.length) (hij : i < j)
    (hlt : xs.get ⟨j, hj⟩ < xs.get ⟨i, Nat.lt_trans hij hj⟩) :
    seriesInit y (some xs) none = .error .assertionError := by
  have hns : isSortedAsc xs = false := by
    rw [Bool.eq_false_iff, Ne, isSortedAsc_iff]
    intro hch
    have hp := List.chain'_iff_pairwise.mp hch
    have := List.pairwise_iff_get.mp hp ⟨i, Nat.lt_trans hij hj⟩ ⟨j, hj⟩ hij
    exact absurd this (not_le.mpr hlt)
  simp [seriesInit, truthyOpt, hns]

/-- Witness for C8 at the concrete unsorted date list `[3, 1]`. -/
theorem seriesInit_unsorted_asserts_witness :
    seriesInit [5, 6] (some [3, 1]) none = .error .assertionError :=
  seriesInit_unsorted_asserts [5, 6] [3, 1] 0 1 (by decide) (by decide) (by decide)

/-! ## Claim C3 -/

/-- C3 counterexample: a raw integer offset is *not* clamped into
`[0, length()-1]` — on a length-3 series, `get_index(100)` returns `100`,
outside the dense range. -/
theorem get_index_int_unclamped :
    Series.get_index ⟨[0, 1, 2], [1, 2, 3]⟩ (.int 100) = .ok 100
    ∧ ¬ (100 : Int) ≤ ((Series.mk [0, 1, 2] [1, 2, 3])._x.length : Int) - 1 :=
  ⟨rfl, by decide⟩

/-- C3 amended: on a nonempty series, a calendar-date argument resolves to
`min(max(d - first_date, 0), length - 1)`, which always lies in
`[0, length()-1]` (dates before the first date give `0`, dates after the last
give `length()-1`) and never raises; an ISO string resolves by parsing and
then clamping like a date; a raw integer offset is returned unchanged,
without clamping. -/
theorem get_index_resolution (s : Series) (d : Int) (i : Int) (st : String)
    (hne : s._x ≠ []) :
    s.get_index (.date d) = .ok (min (max (d - s._x.headD 0) 0) ((s._x.length : Int) - 1))
    ∧ (0 : Int) ≤ min (max (d - s._x.headD 0) 0) ((s._x.length : Int) - 1)
    ∧ min (max (d - s._x.headD 0) 0) ((s._x.length : Int) - 1) ≤ (s._x.length : Int) - 1
    ∧ (d < s._x.headD 0 → min (max (d - s._x.headD 0) 0) ((s._x.length : Int) - 1) = 0)
    ∧ (s._x.headD 0 + (s._x.length : Int) - 1 < d →
        min (max (d - s._x.headD 0) 0) ((s._x.length : Int) - 1) = (s._x.length : Int) - 1)
    ∧ s.get_index (.int i) = .ok i
    ∧ s.get_index (.str st) =
        (get_date_from_isoformat st).bind (fun dd => s.get_index (.date dd)) := by
  obtain ⟨xs, ys⟩ := s
  cases xs with
  | nil => exact absurd rfl hne
  | cons x0 xt =>
    dsimp only [List.headD_cons, List.length_cons]
    refine ⟨rfl, ?_, ?_, ?_, ?_, rfl, ?_⟩
    · rw [Int.min_def, Int.max_def]
      split <;> split <;> omega
    · exact min_le_right _ _
    · intro hd
      rw [Int.min_def, Int.max_def]
      split <;> split <;> omega
    · intro hd
      rw [Int.min_def, Int.max_def]
      split <;> split <;> omega
    · cases h : get_date_from_isoformat st <;>
        simp [Series.get_index, h, Except.bind]

/-- Witness for C3's amended statement on a concrete length-3 series. -/
theorem get_index_resolution_witness :
    (Series.mk [0, 1, 2] [1, 2, 3])._x ≠ []
    ∧ Series.get_index ⟨[0, 1, 2], [1, 2, 3]⟩ (.int 7) = .ok 7 :=
  ⟨by simp,
    (get_index_resolution ⟨[0, 1, 2], [1, 2, 3]⟩ 100 7 "x" (by simp)).2.2.2.2.2.1⟩

/-! ## Claim C4 -/

/-- C4 (a bug in the code): for a plot item that is a *bare* series, the line
`data[0].trim(start, stop)` evaluates `data[0]` via `Series.__getitem__`,
which returns the scalar `self.y[0]`, so `.trim` raises `AttributeError`
instead of drawing the line — whereas the same series wrapped in a 1-element
collection draws exactly one line trace of the trimmed series, labelled with
the item's label and coloured with colour index 0, as the spec says. -/
theorem plot_bare_series_attribute_error :
    plot [(.series ⟨[0, 1], [1, 2]⟩, "A")] "t" false none none none none none true
      = .error .attributeError
    ∧ plot [(.coll [⟨[0, 1], [1, 2]⟩], "A")] "t" false none none none none none true
      = .ok ⟨[.line [0, 1] [1, 2] "rgba(0,0,255,1)" "A"], "t", none, false, none, false⟩ := by
  constructor
  · rfl
  · rfl

/-! ## Claim C5 -/

/-- C5: for a band drawn from lower series `L` and upper series `U` of equal
length, the emitted fill trace's x-coordinates are `U`'s dates followed by
`L`'s dates reversed and its y-coordinates are `U`'s values followed by `L`'s
values reversed; with mismatched lengths the `assert` fails with an
`InvariantError` (`AssertionError`). -/
theorem plot_confidence_range_geometry (lo hi : Series) (lg : Option String)
    (ci : Int) (c : String × String)
    (hwl : lo.y.length = lo._x.length) (hwh : hi.y.length = hi._x.length)
    (hc : pyIndex PLOT_COLORS ci = .ok c) :
    (lo._x.length = hi._x.length →
      plot_confidence_range lo hi lg ci =
        .ok (.fill (hi._x ++ lo._x.reverse) (hi.y ++ lo.y.reverse) c.2 c.2
          lg.isSome lg))
    ∧ (lo._x.length ≠ hi._x.length →
      plot_confidence_range lo hi lg ci = .error .assertionError) := by
  constructor
  · intro heq
    unfold plot_confidence_range
    rw [if_pos heq]
    have hx : concat_seq hi._x lo._x.reverse = .ok (hi._x ++ lo._x.reverse) := by
      unfold concat_seq
      rw [if_pos (by rw [List.length_reverse, heq])]
    have hy : concat_seq hi.y lo.y.reverse = .ok (hi.y ++ lo.y.reverse) := by
      unfold concat_seq
      rw [if_pos (by rw [List.length_reverse, hwl, hwh, heq])]
    rw [hx, hy, hc]
  · intro hne
    unfold plot_confidence_range
    rw [if_neg hne]

/-- Witness for C5 on the spec's own example: lower `[1,2,3]`, upper
`[4,5,6]` over dates `[d, d+1, d+2]` with `d = 0`, plus a mismatched pair. -/
theorem plot_confidence_range_geometry_witness :
    plot_confidence_range ⟨[0, 1, 2], [1, 2, 3]⟩ ⟨[0, 1, 2], [4, 5, 6]⟩ none 0 =
      .ok (.fill [0, 1, 2, 2, 1, 0] [4, 5, 6, 3, 2, 1]
        "rgba(0,0,255,0.25)" "rgba(0,0,255,0.25)" false none)
    ∧ plot_confidence_range ⟨[0, 1], [1, 2]⟩ ⟨[0, 1, 2], [4, 5, 6]⟩ none 0 =
      .error .assertionError :=
  ⟨(plot_confidence_range_geometry ⟨[0, 1, 2], [1, 2, 3]⟩ ⟨[0, 1, 2], [4, 5, 6]⟩
      none 0 ("rgba(0,0,255,1)", "rgba(0,0,255,0.25)") rfl rfl rfl).1 rfl,
    (plot_confidence_range_geometry ⟨[0, 1], [1, 2]⟩ ⟨[0, 1, 2], [4, 5, 6]⟩
      none 0 ("rgba(0,0,255,1)", "rgba(0,0,255,0.25)") rfl rfl rfl).2 (by decide)⟩

/-! ## Claim C9 -/

/-- C9: a series is a value object: construction copies the caller's value
buffer into a fresh one (`s1.yref ≠ yr`), so mutating the input buffer after
construction leaves the series' values unchanged; and `trim` returns a new
instance whose buffer does not alias the original (`s2.yref ≠ s1.yref`),
leaving the original series' values (and its pure date field) unchanged. -/
theorem series_value_object (h : List (List Val)) (yr : Nat)
    (x : Option (List Int)) (sd : Option SDate) (s1 : SeriesH)
    (h1 : List (List Val)) (v : List Val) (start stop : Option XVal)
    (s2 : SeriesH) (h2 : List (List Val))
    (hvr : yr < h.length)
    (hinit : seriesInitH h yr x sd = .ok (s1, h1))
    (htrim : trimH h1 s1 start stop = .ok (s2, h2)) :
    s1.yref ≠ yr
    ∧ heapRead (heapWrite h1 yr v) s1.yref = heapRead h1 s1.yref
    ∧ s2.yref ≠ s1.yref
    ∧ heapRead h2 s1.yref = heapRead h1 s1.yref := by
  unfold seriesInitH at hinit
  unfold trimH at htrim
  split at hinit
  · exact absurd hinit (by simp)
  · next s hs =>
    rw [Except.ok.injEq, Prod.mk.injEq] at hinit
    obtain ⟨hs1, hh1⟩ := hinit
    split at htrim
    · exact absurd htrim (by simp)
    · next t ht =>
      rw [Except.ok.injEq, Prod.mk.injEq] at htrim
      obtain ⟨hs2, hh2⟩ := htrim
      have hyr1 : s1.yref = h.length := by rw [← hs1]
      have hne1 : s1.yref ≠ yr := by omega
      refine ⟨hne1, ?_, ?_, ?_⟩
      · unfold heapRead heapWrite
        rw [List.getD_eq_getElem?_getD, List.getD_eq_getElem?_getD,
          List.getElem?_set_ne (by omega)]
      · rw [← hs2, ← hh1]
        simp only [List.length_append, List.length_singleton]
        omega
      · rw [← hh2, ← hh1, hyr1]
        unfold heapRead
        rw [List.getD_eq_getElem?_getD, List.getD_eq_getElem?_getD,
          List.getElem?_append_left (by simp)]

/-- Witness for C9: a store holding one buffer `[1, 2]`, a construction from
it, and a full-range trim of the result. -/
theorem series_value_object_witness :
    SeriesH.yref ⟨[0, 1], 1⟩ ≠ 0
    ∧ heapRead (heapWrite [[1, 2], [1, 2]] 0 [7, 7]) 1 = heapRead [[1, 2], [1, 2]] 1
    ∧ SeriesH.yref ⟨[0, 1], 2⟩ ≠ SeriesH.yref ⟨[0, 1], 1⟩
    ∧ heapRead [[1, 2], [1, 2], [1, 2]] 1 = heapRead [[1, 2], [1, 2]] 1 :=
  series_value_object [[1, 2]] 0 none (some (.date 0)) ⟨[0, 1], 1⟩
    [[1, 2], [1, 2]] [7, 7] none none ⟨[0, 1], 2⟩ [[1, 2], [1, 2], [1, 2]]
    (by decide) rfl rfl

/-! ## Claim C7 -/

theorem itemFns_bad_count (start stop : Option XVal) (show_ci : Bool) (ci : Int)
    (l : List Series) (name : String)
    (h1 : l.length ≠ 1) (h2 : l.length ≠ 2) (h3 : l.length ≠ 3) :
    itemFns start stop show_ci ci (.coll l, name) =
      .error (.valueError "Invalid number of elements to plot") := by
  simp only [itemFns]
  rw [if_neg h1, if_neg h3, if_neg h2]

theorem collectFns_bad_count (start stop : Option XVal) (show_ci : Bool)
    (cindex : Option Int) (l : List Series) (name : String)
    (post : List (PlotData × String))
    (h1 : l.length ≠ 1) (h2 : l.length ≠ 2) (h3 : l.length ≠ 3) :
    ∀ (pre : List (PlotData × String)) (idx : Nat)
      (acc : List DeferredTrace × List DeferredTrace),
      collectFns start stop show_ci cindex idx pre = .ok acc →
      collectFns start stop show_ci cindex idx (pre ++ (.coll l, name) :: post) =
        .error (.valueError "Invalid number of elements to plot") := by
  intro pre
  induction pre with
  | nil =>
    intro idx acc hacc
    rw [List.nil_append]
    simp only [collectFns]
    rw [itemFns_bad_count start stop show_ci _ l name h1 h2 h3]
  | cons p rest ih =>
    intro idx acc hacc
    rw [List.cons_append]
    simp only [collectFns] at hacc ⊢
    cases hitem : itemFns start stop show_ci (ciOf cindex idx) p with
    | error e =>
      rw [hitem] at hacc
      exact Except.noConfusion hacc
    | ok afl =>
      obtain ⟨afs, lfs⟩ := afl
      rw [hitem] at hacc
      cases hrest : collectFns start stop show_ci cindex (idx + 1) rest with
      | error e =>
        rw [hrest] at hacc
        exact Except.noConfusion hacc
      | ok acc2 => rw [ih (idx + 1) acc2 hrest]

/-- C7: a plot item that is a collection with an element count other than 1,
2 or 3 (e.g. four series, or none at all) makes `plot` fail with the
`ConfigurationError` `ValueError('Invalid number of elements to plot')` — the
whole call errors out, so no output is returned (the hypothesis says only
that the items *before* the offending one processed without error; the items
after it are never reached). -/
theorem plot_invalid_element_count (pre post : List (PlotData × String))
    (l : List Series) (name title : String) (log_scale : Bool)
    (size : Option Nat) (stop start : Option XVal) (ymax : Option Val)
    (cindex : Option Int) (show_ci : Bool)
    (acc : List DeferredTrace × List DeferredTrace)
    (h1 : l.length ≠ 1) (h2 : l.length ≠ 2) (h3 : l.length ≠ 3)
    (hpre : collectFns start stop show_ci cindex 0 pre = .ok acc) :
    plot (pre ++ (.coll l, name) :: post) title log_scale size stop start ymax
      cindex show_ci = .error (.valueError "Invalid number of elements to plot") := by
  unfold plot
  rw [collectFns_bad_count start stop show_ci cindex l name post h1 h2 h3
    pre 0 acc hpre]

theorem runAll_nil_inv (ts : List Trace) (h : runAll [] = .ok ts) : ts = [] :=
  (Except.ok.inj h).symm

theorem runAll_one_inv (f : DeferredTrace) (ts : List Trace)
    (h : runAll [f] = .ok ts) : ∃ t, runDeferred f = .ok t ∧ ts = [t] := by
  unfold runAll at h
  cases hf : runDeferred f with
  | error e => rw [hf] at h; exact Except.noConfusion h
  | ok t =>
    rw [hf] at h
    exact ⟨t, rfl, (Except.ok.inj h).symm⟩

theorem runAll_append_inv (a b : List DeferredTrace) :
    ∀ ts : List Trace, runAll (a ++ b) = .ok ts →
      ∃ ta tb, runAll a = .ok ta ∧ runAll b = .ok tb ∧ ts = ta ++ tb := by
  induction a with
  | nil => intro ts h; exact ⟨[], ts, rfl, h, rfl⟩
  | cons f fs ih =>
    intro ts h
    rw [List.cons_append] at h
    unfold runAll at h
    cases hf : runDeferred f with
    | error e => rw [hf] at h; exact Except.noConfusion h
    | ok t =>
      rw [hf] at h
      cases hr : runAll (fs ++ b) with
      | error e => rw [hr] at h; exact Except.noConfusion h
      | ok ts2 =>
        rw [hr] at h
        obtain ⟨ta, tb, hta, htb, heq⟩ := ih ts2 hr
        refine ⟨t :: ta, tb, ?_, htb, ?_⟩
        · unfold runAll
          rw [hf, hta]
        · rw [← Except.ok.inj h, heq, List.cons_append]

/-- Witness for C7: a single 4-series item (and, for the empty-collection
case mentioned by the claim, the hypotheses are decidable side conditions
discharged here at the 4-series input). -/
theorem plot_invalid_element_count_witness :
    plot [(.coll [⟨[0], [1]⟩, ⟨[0], [1]⟩, ⟨[0], [1]⟩, ⟨[0], [1]⟩], "X")] "t"
      false none none none none none true
      = .error (.valueError "Invalid number of elements to plot") :=
  plot_invalid_element_count [] []
    [⟨[0], [1]⟩, ⟨[0], [1]⟩, ⟨[0], [1]⟩, ⟨[0], [1]⟩] "X" "t" false none none
    none none none true ([], []) (by decide) (by decide) (by decide) rfl

theorem itemFns_spec (start stop : Option XVal) (show_ci : Bool) (ci : Int)
    (item : PlotData × String) (afs lfs : List DeferredTrace)
    (fs ls : List Trace)
    (hitem : itemFns start stop show_ci ci item = .ok (afs, lfs))
    (hf : runAll afs = .ok fs) (hl : runAll lfs = .ok ls) :
    specFillOf start stop show_ci ci item = .ok fs
    ∧ specLineOf start stop ci item = .ok ls := by
  obtain ⟨data, name⟩ := item
  cases data with
  | series s =>
    simp only [itemFns] at hitem
    cases hg : s.getitem (.int 0) with
    | error e => simp only [hg] at hitem; exact Except.noConfusion hitem
    | ok v => simp only [hg] at hitem; exact Except.noConfusion hitem
  | coll l =>
    simp only [itemFns] at hitem
    by_cases hl1 : l.length = 1
    · rw [if_pos hl1] at hitem
      cases hp0 : pyIndex l 0 with
      | error e => simp only [hp0] at hitem; exact Except.noConfusion hitem
      | ok s0 =>
        simp only [hp0] at hitem
        cases ht0 : s0.trim start stop with
        | error e => simp only [ht0] at hitem; exact Except.noConfusion hitem
        | ok t0 =>
          simp only [ht0] at hitem
          have hpair := Except.ok.inj hitem
          have hafs : afs = [] := (congrArg Prod.fst hpair).symm
          have hlfs : lfs = [DeferredTrace.lineFn t0 name ci] :=
            (congrArg Prod.snd hpair).symm
          subst hafs hlfs
          have hfs := runAll_nil_inv fs hf
          obtain ⟨tr, hdt, hts⟩ := runAll_one_inv _ ls hl
          simp only [runDeferred] at hdt
          subst hfs hts
          constructor
          · simp [specFillOf, hl1]
          · simp [specLineOf, hl1, hp0, ht0, hdt]
    · rw [if_neg hl1] at hitem
      by_cases hl3 : l.length = 3
      · rw [if_pos hl3] at hitem
        cases hsc : show_ci with
        | true =>
          subst hsc
          rw [if_pos rfl] at hitem
          cases hp1 : pyIndex l 1 with
          | error e => simp only [hp1] at hitem; exact Except.noConfusion hitem
          | ok s1 =>
            simp only [hp1] at hitem
            cases ht1 : s1.trim start stop with
            | error e => simp only [ht1] at hitem; exact Except.noConfusion hitem
            | ok t1 =>
              simp only [ht1] at hitem
              cases hp2 : pyIndex l 2 with
              | error e => simp only [hp2] at hitem; exact Except.noConfusion hitem
              | ok s2 =>
                simp only [hp2] at hitem
                cases ht2 : s2.trim start stop with
                | error e => simp only [ht2] at hitem; exact Except.noConfusion hitem
                | ok t2 =>
                  simp only [ht2] at hitem
                  cases hp0 : pyIndex l 0 with
                  | error e => simp only [hp0] at hitem; exact Except.noConfusion hitem
                  | ok s0 =>
                    simp only [hp0] at hitem
                    cases ht0 : s0.trim start stop with
                    | error e => simp only [ht0] at hitem; exact Except.noConfusion hitem
                    | ok t0 =>
                      simp only [ht0] at hitem
                      have hpair := Except.ok.inj hitem
                      have hafs : afs = [DeferredTrace.areaFn t1 t2 none ci] :=
                        (congrArg Prod.fst hpair).symm
                      have hlfs : lfs = [DeferredTrace.lineFn t0 name ci] :=
                        (congrArg Prod.snd hpair).symm
                      subst hafs hlfs
                      obtain ⟨trf, hdf, hfs⟩ := runAll_one_inv _ fs hf
                      obtain ⟨trl, hdl, hls⟩ := runAll_one_inv _ ls hl
                      simp only [runDeferred] at hdf hdl
                      subst hfs hls
                      constructor
                      · simp [specFillOf, hl3, hp1, ht1, hp2, ht2, hdf]
                      · simp [specLineOf, hl3, hp0, ht0, hdl]
        | false =>
          subst hsc
          rw [if_neg (by simp)] at hitem
          cases hp0 : pyIndex l 0 with
          | error e => simp only [hp0] at hitem; exact Except.noConfusion hitem
          | ok s0 =>
            simp only [hp0] at hitem
            cases ht0 : s0.trim start stop with
            | error e => simp only [ht0] at hitem; exact Except.noConfusion hitem
            | ok t0 =>
              simp only [ht0] at hitem
              have hpair := Except.ok.inj hitem
              have hafs : afs = [] := (congrArg Prod.fst hpair).symm
              have hlfs : lfs = [DeferredTrace.lineFn t0 name ci] :=
                (congrArg Prod.snd hpair).symm
              subst hafs hlfs
              have hfs := runAll_nil_inv fs hf
              obtain ⟨tr, hdt, hts⟩ := runAll_one_inv _ ls hl
              simp only [runDeferred] at hdt
              subst hfs hts
              constructor
              · simp [specFillOf, hl3]
              · simp [specLineOf, hl3, hp0, ht0, hdt]
      · rw [if_neg hl3] at hitem
        by_cases hl2 : l.length = 2
        · rw [if_pos hl2] at hitem
          cases hp0 : pyIndex l 0 with
          | error e => simp only [hp0] at hitem; exact Except.noConfusion hitem
          | ok s0 =>
            simp only [hp0] at hitem
            cases ht0 : s0.trim start stop with
            | error e => simp only [ht0] at hitem; exact Except.noConfusion hitem
            | ok t0 =>
              simp only [ht0] at hitem
              cases hp1 : pyIndex l 1 with
              | error e => simp only [hp1] at hitem; exact Except.noConfusion hitem
              | ok s1 =>
                simp only [hp1] at hitem
                cases ht1 : s1.trim start stop with
                | error e => simp only [ht1] at hitem; exact Except.noConfusion hitem
                | ok t1 =>
                  simp only [ht1] at hitem
                  have hpair := Except.ok.inj hitem
                  have hafs : afs = [DeferredTrace.areaFn t0 t1 (some name) ci] :=
                    (congrArg Prod.fst hpair).symm
                  have hlfs : lfs = [] := (congrArg Prod.snd hpair).symm
                  subst hafs hlfs
                  obtain ⟨trf, hdf, hfs⟩ := runAll_one_inv _ fs hf
                  have hls := runAll_nil_inv ls hl
                  simp only [runDeferred] at hdf
                  subst hfs hls
                  constructor
                  · simp [specFillOf, hl2, hp0, ht0, hp1, ht1, hdf]
                  · simp [specLineOf, hl2]
        · rw [if_neg hl2] at hitem
          exact Except.noConfusion hitem

theorem plot_line_isLine (s : Series) (n : String) (ci : Int) (t : Trace)
    (h : plot_line s n ci = .ok t) : t.isLine = true := by
  unfold plot_line at h
  cases hc : pyIndex PLOT_COLORS ci with
  | error e => rw [hc] at h; exact Except.noConfusion h
  | ok c =>
    rw [hc] at h
    rw [← Except.ok.inj h]
    rfl

theorem plot_confidence_range_isFill (lo hi : Series) (lg : Option String)
    (ci : Int) (t : Trace) (h : plot_confidence_range lo hi lg ci = .ok t) :
    t.isFill = true := by
  unfold plot_confidence_range at h
  split at h
  · cases hx : concat_seq hi._x lo._x.reverse with
    | error e => simp only [hx] at h; exact Except.noConfusion h
    | ok xc =>
      simp only [hx] at h
      cases hy : concat_seq hi.y lo.y.reverse with
      | error e => simp only [hy] at h; exact Except.noConfusion h
      | ok yc =>
        simp only [hy] at h
        cases hc : pyIndex PLOT_COLORS ci with
        | error e => simp only [hc] at h; exact Except.noConfusion h
        | ok c =>
          simp only [hc] at h
          rw [← Except.ok.inj h]
          rfl
  · exact Except.noConfusion h

theorem specFillOf_all_fill (start stop : Option XVal) (sc : Bool) (ci : Int)
    (item : PlotData × String) (ts : List Trace)
    (h : specFillOf start stop sc ci item = .ok ts) :
    ts.all Trace.isFill = true := by
  obtain ⟨data, name⟩ := item
  cases data with
  | series s =>
    simp only [specFillOf] at h
    rw [← Except.ok.inj h]
    rfl
  | coll l =>
    simp only [specFillOf] at h
    split at h
    · cases hp0 : pyIndex l 0 with
      | error e => simp only [hp0] at h; exact Except.noConfusion h
      | ok s0 =>
        simp only [hp0] at h
        cases ht0 : s0.trim start stop with
        | error e => simp only [ht0] at h; exact Except.noConfusion h
        | ok t0 =>
          simp only [ht0] at h
          cases hp1 : pyIndex l 1 with
          | error e => simp only [hp1] at h; exact Except.noConfusion h
          | ok s1 =>
            simp only [hp1] at h
            cases ht1 : s1.trim start stop with
            | error e => simp only [ht1] at h; exact Except.noConfusion h
            | ok t1 =>
              simp only [ht1] at h
              cases hcr : plot_confidence_range t0 t1 (some name) ci with
              | error e => simp only [hcr] at h; exact Except.noConfusion h
              | ok t =>
                simp only [hcr] at h
                rw [← Except.ok.inj h]
                simp [plot_confidence_range_isFill t0 t1 (some name) ci t hcr]
    · split at h
      · cases hp1 : pyIndex l 1 with
        | error e => simp only [hp1] at h; exact Except.noConfusion h
        | ok s1 =>
          simp only [hp1] at h
          cases ht1 : s1.trim start stop with
          | error e => simp only [ht1] at h; exact Except.noConfusion h
          | ok t1 =>
            simp only [ht1] at h
            cases hp2 : pyIndex l 2 with
            | error e => simp only [hp2] at h; exact Except.noConfusion h
            | ok s2 =>
              simp only [hp2] at h
              cases ht2 : s2.trim start stop with
              | error e => simp only [ht2] at h; exact Except.noConfusion h
              | ok t2 =>
                simp only [ht2] at h
                cases hcr : plot_confidence_range t1 t2 none ci with
                | error e => simp only [hcr] at h; exact Except.noConfusion h
                | ok t =>
                  simp only [hcr] at h
                  rw [← Except.ok.inj h]
                  simp [plot_confidence_range_isFill t1 t2 none ci t hcr]
      · rw [← Except.ok.inj h]
        rfl

theorem specLineOf_all_line (start stop : Option XVal) (ci : Int)
    (item : PlotData × String) (ts : List Trace)
    (h : specLineOf start stop ci item = .ok ts) :
    ts.all Trace.isLine = true := by
  obtain ⟨data, name⟩ := item
  cases data with
  | series s =>
    simp only [specLineOf] at h
    cases ht : s.trim start stop with
    | error e => simp only [ht] at h; exact Except.noConfusion h
    | ok t0 =>
      simp only [ht] at h
      cases hpl : plot_line t0 name ci with
      | error e => simp only [hpl] at h; exact Except.noConfusion h
      | ok tr =>
        simp only [hpl] at h
        rw [← Except.ok.inj h]
        simp [plot_line_isLine t0 name ci tr hpl]
  | coll l =>
    simp only [specLineOf] at h
    split at h
    · cases hp0 : pyIndex l 0 with
      | error e => simp only [hp0] at h; exact Except.noConfusion h
      | ok s0 =>
        simp only [hp0] at h
        cases ht0 : s0.trim start stop with
        | error e => simp only [ht0] at h; exact Except.noConfusion h
        | ok t0 =>
          simp only [ht0] at h
          cases hpl : plot_line t0 name ci with
          | error e => simp only [hpl] at h; exact Except.noConfusion h
          | ok tr =>
            simp only [hpl] at h
            rw [← Except.ok.inj h]
            simp [plot_line_isLine t0 name ci tr hpl]
    · rw [← Except.ok.inj h]
      rfl

theorem specFills_all_fill (start stop : Option XVal) (sc : Bool)
    (cindex : Option Int) :
    ∀ (items : List (PlotData × String)) (idx : Nat) (ts : List Trace),
      specFills start stop sc cindex idx items = .ok ts →
      ts.all Trace.isFill = true := by
  intro items
  induction items with
  | nil =>
    intro idx ts h
    rw [← Except.ok.inj h]
    rfl
  | cons item rest ih =>
    intro idx ts h
    simp only [specFills] at h
    cases h1 : specFillOf start stop sc (ciOf cindex idx) item with
    | error e => rw [h1] at h; exact Except.noConfusion h
    | ok ts1 =>
      rw [h1] at h
      cases h2 : specFills start stop sc cindex (idx + 1) rest with
      | error e => rw [h2] at h; exact Except.noConfusion h
      | ok ts2 =>
        rw [h2] at h
        rw [← Except.ok.inj h, List.all_append]
        rw [specFillOf_all_fill start stop sc (ciOf cindex idx) item ts1 h1,
          ih (idx + 1) ts2 h2]
        rfl

theorem specLines_all_line (start stop : Option XVal) (cindex : Option Int) :
    ∀ (items : List (PlotData × String)) (idx : Nat) (ts : List Trace),
      specLines start stop cindex idx items = .ok ts →
      ts.all Trace.isLine = true := by
  intro items
  induction items with
  | nil =>
    intro idx ts h
    rw [← Except.ok.inj h]
    rfl
  | cons item rest ih =>
    intro idx ts h
    simp only [specLines] at h
    cases h1 : specLineOf start stop (ciOf cindex idx) item with
    | error e => rw [h1] at h; exact Except.noConfusion h
    | ok ts1 =>
      rw [h1] at h
      cases h2 : specLines start stop cindex (idx + 1) rest with
      | error e => rw [h2] at h; exact Except.noConfusion h
      | ok ts2 =>
        rw [h2] at h
        rw [← Except.ok.inj h, List.all_append]
        rw [specLineOf_all_line start stop (ciOf cindex idx) item ts1 h1,
          ih (idx + 1) ts2 h2]
        rfl

theorem collectFns_spec (start stop : Option XVal) (sc : Bool)
    (cindex : Option Int) :
    ∀ (items : List (PlotData × String)) (idx : Nat)
      (ars lns : List DeferredTrace) (fs ls : List Trace),
      collectFns start stop sc cindex idx items = .ok (ars, lns) →
      runAll ars = .ok fs → runAll lns = .ok ls →
      specFills start stop sc cindex idx items = .ok fs
      ∧ specLines start stop cindex idx items = .ok ls := by
  intro items
  induction items with
  | nil =>
    intro idx ars lns fs ls hc hf hl
    have hp := Except.ok.inj hc
    have hars : ars = [] := (congrArg Prod.fst hp).symm
    have hlns : lns = [] := (congrArg Prod.snd hp).symm
    subst hars hlns
    have hfs := runAll_nil_inv fs hf
    have hls := runAll_nil_inv ls hl
    subst hfs hls
    exact ⟨rfl, rfl⟩
  | cons item rest ih =>
    intro idx ars lns fs ls hc hf hl
    simp only [collectFns] at hc
    cases hi : itemFns start stop sc (ciOf cindex idx) item with
    | error e => rw [hi] at hc; exact Except.noConfusion hc
    | ok p =>
      obtain ⟨afs, lfs⟩ := p
      rw [hi] at hc
      cases hr : collectFns start stop sc cindex (idx + 1) rest with
      | error e => simp only [hr] at hc; exact Except.noConfusion hc
      | ok q =>
        obtain ⟨ar, lr⟩ := q
        simp only [hr] at hc
        have hp := Except.ok.inj hc
        have hars : ars = afs ++ ar := (congrArg Prod.fst hp).symm
        have hlns : lns = lfs ++ lr := (congrArg Prod.snd hp).symm
        subst hars hlns
        obtain ⟨fa, fb, hfa, hfb, hfeq⟩ := runAll_append_inv afs ar fs hf
        obtain ⟨la, lb, hla, hlb, hleq⟩ := runAll_append_inv lfs lr ls hl
        subst hfeq hleq
        obtain ⟨hsf, hsl⟩ := ih (idx + 1) ar lr fb lb hr hfb hlb
        obtain ⟨hif, hil⟩ :=
          itemFns_spec start stop sc (ciOf cindex idx) item afs lfs fa la hi hfa hla
        constructor
        · simp only [specFills, hif, hsf]
        · simp only [specLines, hil, hsl]

/-! ## Claim C2 -/

/-- C2: whenever `plot` succeeds, the emitted trace list is exactly all the
band traces followed by all the line traces, where each group lists the
items' contributions in input order (`specFills` / `specLines` walk the items
one at a time in input order); every trace of the first group is a fill and
every trace of the second group is a line, so all fills precede all lines
regardless of the order in which the items appeared. -/
theorem plot_fills_before_lines (items : List (PlotData × String))
    (title : String) (log_scale : Bool) (size : Option Nat)
    (stop start : Option XVal) (ymax : Option Val) (cindex : Option Int)
    (sc : Bool) (fig : Fig)
    (hok : plot items title log_scale size stop start ymax cindex sc = .ok fig) :
    (specFills start stop sc cindex 0 items).isOk = true
    ∧ (specLines start stop cindex 0 items).isOk = true
    ∧ fig.traces = (specFills start stop sc cindex 0 items).toOption.getD []
        ++ (specLines start stop cindex 0 items).toOption.getD []
    ∧ ((specFills start stop sc cindex 0 items).toOption.getD []).all
        Trace.isFill = true
    ∧ ((specLines start stop cindex 0 items).toOption.getD []).all
        Trace.isLine = true := by
  unfold plot at hok
  cases hc : collectFns start stop sc cindex 0 items with
  | error e => rw [hc] at hok; exact Except.noConfusion hok
  | ok p =>
    obtain ⟨ars, lns⟩ := p
    simp only [hc] at hok
    cases hf : runAll ars with
    | error e => simp only [hf] at hok; exact Except.noConfusion hok
    | ok fs =>
      simp only [hf] at hok
      cases hl : runAll lns with
      | error e => simp only [hl] at hok; exact Except.noConfusion hok
      | ok ls =>
        simp only [hl] at hok
        obtain ⟨hsf, hsl⟩ :=
          collectFns_spec start stop sc cindex items 0 ars lns fs ls hc hf hl
        have htr : fig.traces = fs ++ ls := by
          rw [← Except.ok.inj hok]
        rw [hsf, hsl, htr]
        refine ⟨rfl, rfl, rfl, ?_, ?_⟩
        · exact specFills_all_fill start stop sc cindex items 0 fs hsf
        · exact specLines_all_line start stop cindex items 0 ls hsl

/-- Witness for C2 on the spec's draw-order example: composing
`[lineOnly, tripleWithBand]` in that order yields
`[fill(from item2), line(from item1), line(from item2)]`. -/
theorem plot_fills_before_lines_witness :
    (specFills none none true none 0
      [(.coll [⟨[0, 1], [1, 2]⟩], "A"),
        (.coll [⟨[0, 1], [5, 6]⟩, ⟨[0, 1], [1, 2]⟩, ⟨[0, 1], [9, 9]⟩], "B")]).isOk
      = true
    ∧ (specLines none none none 0
      [(.coll [⟨[0, 1], [1, 2]⟩], "A"),
        (.coll [⟨[0, 1], [5, 6]⟩, ⟨[0, 1], [1, 2]⟩, ⟨[0, 1], [9, 9]⟩], "B")]).isOk
      = true
    ∧ (Fig.traces ⟨[.fill [0, 1, 1, 0] [9, 9, 2, 1] "rgba(255,0,0,0.25)"
          "rgba(255,0,0,0.25)" false none,
        .line [0, 1] [1, 2] "rgba(0,0,255,1)" "A",
        .line [0, 1] [5, 6] "rgba(255,0,0,1)" "B"], "t", none, false, none, true⟩)
      = (specFills none none true none 0
          [(.coll [⟨[0, 1], [1, 2]⟩], "A"),
            (.coll [⟨[0, 1], [5, 6]⟩, ⟨[0, 1], [1, 2]⟩, ⟨[0, 1], [9, 9]⟩],
              "B")]).toOption.getD []
        ++ (specLines none none none 0
          [(.coll [⟨[0, 1], [1, 2]⟩], "A"),
            (.coll [⟨[0, 1], [5, 6]⟩, ⟨[0, 1], [1, 2]⟩, ⟨[0, 1], [9, 9]⟩],
              "B")]).toOption.getD []
    ∧ ((specFills none none true none 0
          [(.coll [⟨[0, 1], [1, 2]⟩], "A"),
            (.coll [⟨[0, 1], [5, 6]⟩, ⟨[0, 1], [1, 2]⟩, ⟨[0, 1], [9, 9]⟩],
              "B")]).toOption.getD []).all Trace.isFill = true
    ∧ ((specLines none none none 0
          [(.coll [⟨[0, 1], [1, 2]⟩], "A"),
            (.coll [⟨[0, 1], [5, 6]⟩, ⟨[0, 1], [1, 2]⟩, ⟨[0, 1], [9, 9]⟩],
              "B")]).toOption.getD []).all Trace.isLine = true :=
  plot_fills_before_lines
    [(.coll [⟨[0, 1], [1, 2]⟩], "A"),
      (.coll [⟨[0, 1], [5, 6]⟩, ⟨[0, 1], [1, 2]⟩, ⟨[0, 1], [9, 9]⟩], "B")]
    "t" false none none none none none true
    ⟨[.fill [0, 1, 1, 0] [9, 9, 2, 1] "rgba(255,0,0,0.25)"
        "rgba(255,0,0,0.25)" false none,
      .line [0, 1] [1, 2] "rgba(0,0,255,1)" "A",
      .line [0, 1] [5, 6] "rgba(255,0,0,1)" "B"], "t", none, false, none, true⟩
    rfl

/-! ## Claim C1: lemmas about the forward-fill folds -/

theorem lastK_all_gt : ∀ (ps : List (Int × Val)) (d : Int) (a : Val),
    (∀ p ∈ ps, d < p.1) → lastK ps d a = a
  | [], _, _, _ => rfl
  | p :: ps, d, a, h => by
    simp only [lastK]
    rw [if_neg (not_le.mpr (h p (List.mem_cons_self p ps)))]
    exact lastK_all_gt ps d a (fun q hq => h q (List.mem_cons_of_mem p hq))

theorem lastK_init_irrel : ∀ (ps : List (Int × Val)) (d : Int) (a b : Val),
    (∃ p ∈ ps, p.1 ≤ d) → lastK ps d a = lastK ps d b
  | [], _, _, _, h => absurd h (by simp)
  | p :: ps, d, a, b, h => by
    simp only [lastK]
    by_cases hp : p.1 ≤ d
    · rw [if_pos hp, if_pos hp]
    · rw [if_neg hp, if_neg hp]
      obtain ⟨q, hq, hqd⟩ := h
      rcases List.mem_cons.mp hq with rfl | hq2
      · exact absurd hqd hp
      · exact lastK_init_irrel ps d a b ⟨q, hq2, hqd⟩

theorem dictGet_eq_lastK_of_ge : ∀ (ps : List (Int × Val)) (d : Int) (a : Val),
    (∀ p ∈ ps, d ≤ p.1) → dictGet ps d a = lastK ps d a
  | [], _, _, _ => rfl
  | p :: ps, d, a, h => by
    simp only [dictGet, lastK]
    have hle : d ≤ p.1 := h p (List.mem_cons_self p ps)
    by_cases he : p.1 = d
    · rw [if_pos he, if_pos (le_of_eq he)]
      exact dictGet_eq_lastK_of_ge ps d _
        (fun q hq => h q (List.mem_cons_of_mem p hq))
    · rw [if_neg he, if_neg (fun hl => he (le_antisymm hl hle))]
      exact dictGet_eq_lastK_of_ge ps d _
        (fun q hq => h q (List.mem_cons_of_mem p hq))

theorem dictGet_lastK_sorted : ∀ (ps : List (Int × Val)),
    List.Pairwise (fun p q : Int × Val => p.1 ≤ q.1) ps →
    ∀ (d : Int) (a : Val), dictGet ps d (lastK ps (d - 1) a) = lastK ps d a
  | [], _, _, _ => rfl
  | p :: ps, hpw, d, a => by
    obtain ⟨hhead, htail⟩ := List.pairwise_cons.mp hpw
    simp only [dictGet, lastK]
    rcases lt_trichotomy p.1 d with hlt | heq | hgt
    · rw [if_neg (ne_of_lt hlt), if_pos (by omega : p.1 ≤ d - 1),
        if_pos (le_of_lt hlt)]
      exact dictGet_lastK_sorted ps htail d p.2
    · rw [if_pos heq, if_pos (le_of_eq heq)]
      exact dictGet_eq_lastK_of_ge ps d p.2 (fun q hq => heq ▸ hhead q hq)
    · rw [if_neg (by omega : ¬ p.1 = d), if_neg (by omega : ¬ p.1 ≤ d - 1),
        if_neg (by omega : ¬ p.1 ≤ d)]
      exact dictGet_lastK_sorted ps htail d a

theorem dateRange_succ (d : Int) (n : Nat) :
    dateRange d (n + 1) = d :: dateRange (d + 1) n := by
  unfold dateRange
  rw [List.range_succ_eq_map]
  simp only [List.map_cons, List.map_map]
  congr 1
  · simp
  · apply List.map_congr_left
    intro i _
    simp only [Function.comp_apply]
    push_cast
    ring

theorem mem_dateRange (a : Int) (n : Nat) (d : Int) (h : d ∈ dateRange a n) :
    a ≤ d ∧ d < a + n := by
  unfold dateRange at h
  obtain ⟨i, hi, rfl⟩ := List.mem_map.mp h
  rw [List.mem_range] at hi
  omega

theorem dateRange_length (d : Int) (n : Nat) : (dateRange d n).length = n := by
  simp [dateRange]

theorem dateRange_chain : ∀ (n : Nat) (d : Int),
    List.Chain' (fun a b => b = a + 1) (dateRange d n)
  | 0, _ => by simp [dateRange]
  | 1, d => by
    rw [dateRange, show (List.range 1 : List Nat) = [0] from rfl]
    simp
  | n + 2, d => by
    rw [dateRange_succ, dateRange_succ]
    rw [List.chain'_cons]
    exact ⟨rfl, by rw [← dateRange_succ]; exact dateRange_chain (n + 1) (d + 1)⟩

theorem getLast_snd_cons : ∀ (F : List (Int × Val)) (p : Int × Val) (a : Val),
    (((p :: F).getLast?).map Prod.snd).getD a = ((F.getLast?).map Prod.snd).getD p.2
  | [], _, _ => rfl
  | q :: F, p, a => by
    rw [List.getLast?_cons_cons]
    rw [getLast_snd_cons F q a, getLast_snd_cons F q p.2]

theorem lastK_eq_ffill : ∀ (ps : List (Int × Val)) (d : Int) (a : Val),
    lastK ps d a =
      (((ps.filter (fun p => decide (p.1 ≤ d))).getLast?).map Prod.snd).getD a
  | [], _, _ => rfl
  | p :: ps, d, a => by
    simp only [lastK, List.filter_cons]
    by_cases hp : p.1 ≤ d
    · rw [if_pos hp, if_pos (by simpa using hp)]
      rw [getLast_snd_cons]
      exact lastK_eq_ffill ps d p.2
    · rw [if_neg hp, if_neg (by simpa using hp)]
      exact lastK_eq_ffill ps d a

theorem pairwise_keys_zip : ∀ (xs : List Int) (y : List Val),
    List.Pairwise (· ≤ ·) xs →
    List.Pairwise (fun p q : Int × Val => p.1 ≤ q.1) (xs.zip y)
  | [], _, _ => by simp
  | x :: xs, [], _ => by simp
  | x :: xs, v :: ys, h => by
    obtain ⟨hh, ht⟩ := List.pairwise_cons.mp h
    rw [List.zip_cons_cons, List.pairwise_cons]
    refine ⟨?_, pairwise_keys_zip xs ys ht⟩
    intro q hq
    obtain ⟨k, w⟩ := q
    exact hh k (List.of_mem_zip hq).1

theorem chainLt_le_get : ∀ (xs : List Int), List.Chain' (· < ·) xs →
    ∀ (i : Nat) (h : i < xs.length), xs.headD 0 + (i : Int) ≤ xs.get ⟨i, h⟩
  | [], _, i, h => by simp at h
  | [x], _, 0, _ => by simp
  | [x], _, i + 1, h => by simp at h
  | x :: b :: t, hc, 0, _ => by simp
  | x :: b :: t, hc, i + 1, h => by
    obtain ⟨hxb, hct⟩ := List.chain'_cons.mp hc
    have hlt : i < (b :: t).length := by simpa using h
    have ih := chainLt_le_get (b :: t) hct i hlt
    have heq : (x :: b :: t).get ⟨i + 1, h⟩ = (b :: t).get ⟨i, hlt⟩ := rfl
    rw [heq]
    simp only [List.headD_cons] at ih ⊢
    omega

theorem getLastD_irrel (l : List Int) (x a b : Int) :
    (x :: l).getLastD a = (x :: l).getLastD b := by
  rw [List.getLastD_cons, List.getLastD_cons]

theorem chainLt_getLastD : ∀ (xs : List Int), List.Chain' (· < ·) xs → xs ≠ [] →
    xs.headD 0 + ((xs.length : Int) - 1) ≤ xs.getLastD 0
  | [], _, h => absurd rfl h
  | [x], _, _ => by simp
  | x :: b :: t, hc, _ => by
    obtain ⟨hxb, hct⟩ := List.chain'_cons.mp hc
    have ih := chainLt_getLastD (b :: t) hct (by simp)
    rw [List.getLastD_cons, getLastD_irrel t b x 0]
    simp only [List.headD_cons, List.length_cons] at ih ⊢
    push_cast at ih ⊢
    omega

theorem chain_dense : ∀ (xs : List Int), List.Chain' (· < ·) xs → xs ≠ [] →
    ((xs.getLastD 0 - xs.headD 0 + 1).toNat ≤ xs.length) →
    xs = dateRange (xs.headD 0) xs.length
  | [], _, h, _ => absurd rfl h
  | [x], _, _, _ => by
    show [x] = dateRange x 1
    rw [dateRange, show (List.range 1 : List Nat) = [0] from rfl]
    simp
  | x :: b :: t, hc, _, hspan => by
    obtain ⟨hxb, hct⟩ := List.chain'_cons.mp hc
    have hlast : (x :: b :: t).getLastD 0 = (b :: t).getLastD 0 := by
      rw [List.getLastD_cons]
      exact getLastD_irrel t b x 0
    have hbound := chainLt_getLastD (b :: t) hct (by simp)
    rw [hlast] at hspan
    simp only [List.headD_cons, List.length_cons] at hbound hspan ⊢
    push_cast at hbound hspan
    have hb : b = x + 1 := by omega
    have hspan2 : (((b :: t).getLastD 0 - (b :: t).headD 0 + 1).toNat
        ≤ (b :: t).length) := by
      simp only [List.headD_cons, List.length_cons]
      omega
    have ih := chain_dense (b :: t) hct (by simp) hspan2
    simp only [List.headD_cons, List.length_cons] at ih
    rw [dateRange_succ]
    rw [← hb, ← ih]

theorem lastK_dense_getD : ∀ (y : List Val) (x0 : Int) (i : Nat), i < y.length →
    lastK ((dateRange x0 y.length).zip y) (x0 + (i : Int)) 0 = y.getD i 0
  | [], _, i, h => by simp at h
  | v :: ys, x0, 0, _ => by
    simp only [List.length_cons, dateRange_succ, List.zip_cons_cons, lastK]
    rw [if_pos (by omega : x0 ≤ x0 + ((0 : Nat) : Int))]
    rw [lastK_all_gt _ _ _ ?gt]
    case gt =>
      intro p hp
      obtain ⟨k, w⟩ := p
      have hm := (List.of_mem_zip hp).1
      have := mem_dateRange (x0 + 1) ys.length k hm
      push_cast
      omega
    simp
  | v :: ys, x0, i + 1, h => by
    simp only [List.length_cons, dateRange_succ, List.zip_cons_cons, lastK]
    rw [if_pos (by push_cast; omega : x0 ≤ x0 + ((i + 1 : Nat) : Int))]
    have hi : i < ys.length := by simpa using h
    have ih := lastK_dense_getD ys (x0 + 1) i hi
    have harith : x0 + ((i + 1 : Nat) : Int) = (x0 + 1) + (i : Int) := by
      push_cast
      ring
    rw [harith]
    cases ys with
    | nil => simp at hi
    | cons w ws =>
      rw [lastK_init_irrel _ _ v 0 ?ex]
      case ex =>
        refine ⟨(x0 + 1, w), ?_, by omega⟩
        simp only [List.length_cons, dateRange_succ, List.zip_cons_cons]
        exact List.mem_cons_self _ _
      rw [ih]
      simp

theorem densifyGo_spec (ps : List (Int × Val))
    (hpw : List.Pairwise (fun p q : Int × Val => p.1 ≤ q.1) ps) :
    ∀ (n : Nat) (d : Int) (a : Val),
      densifyGo ps (lastK ps (d - 1) a) (dateRange d n) =
        (List.range n).map (fun i : Nat => lastK ps (d + (i : Int)) a)
  | 0, _, _ => by simp [dateRange, densifyGo]
  | n + 1, d, a => by
    rw [dateRange_succ]
    simp only [densifyGo]
    rw [dictGet_lastK_sorted ps hpw d a]
    rw [show lastK ps d a = lastK ps ((d + 1) - 1) a by norm_num]
    rw [densifyGo_spec ps hpw n (d + 1) a]
    rw [List.range_succ_eq_map]
    simp only [List.map_cons, List.map_map]
    congr 1
    · norm_num
    · apply List.map_congr_left
      intro i _
      simp only [Function.comp_apply]
      congr 1
      push_cast
      ring

theorem lastK_zip_head_zero (x0 : Int) (xrest : List Int) (y : List Val)
    (hpw : List.Pairwise (· < ·) (x0 :: xrest)) (a : Val) :
    lastK ((x0 :: xrest).zip y) (x0 - 1) a = a := by
  apply lastK_all_gt
  intro p hp
  obtain ⟨k, w⟩ := p
  have hm := (List.of_mem_zip hp).1
  rcases List.mem_cons.mp hm with heq | hm2
  · dsimp only
    omega
  · have := (List.pairwise_cons.mp hpw).1 k hm2
    dsimp only
    omega

theorem seriesInit_x_branch (y : List Val) (x0 : Int) (xrest : List Int)
    (hs : isSortedAsc (x0 :: xrest) = true) :
    seriesInit y (some (x0 :: xrest)) none =
      mkSeries y (some (x0 :: xrest)) x0
        ((((x0 :: xrest).getLastD 0) - x0 + 1).toNat) := by
  unfold seriesInit
  rw [if_neg (by simp)]
  simp [truthyOpt, hs]

theorem mkSeries_densify_eq (y : List Val) (start : Int) (num : Nat)
    (xs : List Int) (hlt : y.length < num) (hmap : xs.length = y.length) :
    mkSeries y (some xs) start num =
      .ok ⟨dateRange start num, densifyGo (xs.zip y) 0 (dateRange start num)⟩ := by
  have hxy : map_x_to_y xs y = .ok (xs.zip y) := by
    unfold map_x_to_y
    rw [if_pos hmap]
  simp only [mkSeries, hlt, if_true, hxy]

theorem mkSeries_dense_eq (y : List Val) (x : Option (List Int)) (start : Int)
    (num : Nat) (hge : ¬ y.length < num) :
    mkSeries y x start num = .ok ⟨dateRange start num, y⟩ := by
  unfold mkSeries
  rw [if_neg hge]

/-- C1: constructing a series from a strictly ascending explicit date list
and an equally long value list yields a gap-free series spanning every
calendar day from the minimum to the maximum input date — its dates are the
consecutive run of length `(max - min).days + 1` (`spanOf`) starting at the
minimum — and the value on each day is `ffillValue`, the spec's forward
fill: the input value of that day if present, else the most recent prior
input value, else `0.0`. -/
theorem seriesInit_sparse_densifies (xs : List Int) (y : List Val)
    (hne : xs ≠ []) (hlen : xs.length = y.length)
    (hchain : List.Chain' (· < ·) xs) :
    seriesInit y (some xs) none =
      .ok ⟨dateRange (xs.headD 0) (spanOf xs),
        (List.range (spanOf xs)).map
          (fun i : Nat => ffillValue (xs.zip y) (xs.headD 0 + (i : Int)))⟩
    ∧ (dateRange (xs.headD 0) (spanOf xs)).length = spanOf xs
    ∧ List.Chain' (fun a b => b = a + 1)
        (dateRange (xs.headD 0) (spanOf xs)) := by
  refine ⟨?_, dateRange_length _ _, dateRange_chain _ _⟩
  cases xs with
  | nil => exact absurd rfl hne
  | cons x0 xrest =>
    have hpw_lt : List.Pairwise (· < ·) (x0 :: xrest) :=
      List.chain'_iff_pairwise.mp hchain
    have hpw_le : List.Pairwise (· ≤ ·) (x0 :: xrest) :=
      hpw_lt.imp (fun h => le_of_lt h)
    have hsorted : isSortedAsc (x0 :: xrest) = true :=
      (isSortedAsc_iff _).mpr (List.chain'_iff_pairwise.mpr hpw_le)
    simp only [List.headD_cons]
    rw [seriesInit_x_branch y x0 xrest hsorted]
    rw [show ((((x0 :: xrest).getLastD 0) - x0 + 1).toNat) = spanOf (x0 :: xrest)
      from (by simp [spanOf])]
    by_cases hlt : y.length < spanOf (x0 :: xrest)
    · rw [mkSeries_densify_eq y x0 (spanOf (x0 :: xrest)) (x0 :: xrest) hlt hlen]
      have hds := densifyGo_spec ((x0 :: xrest).zip y)
        (pairwise_keys_zip _ y hpw_le) (spanOf (x0 :: xrest)) x0 0
      rw [lastK_zip_head_zero x0 xrest y hpw_lt 0] at hds
      rw [hds]
      refine congrArg Except.ok (congrArg (Series.mk _) ?_)
      apply List.map_congr_left
      intro i _
      exact lastK_eq_ffill ((x0 :: xrest).zip y) (x0 + (i : Int)) 0
    · rw [mkSeries_dense_eq y (some (x0 :: xrest)) x0 (spanOf (x0 :: xrest)) hlt]
      refine congrArg Except.ok (congrArg (Series.mk _) ?_)
      have hb := chainLt_getLastD (x0 :: xrest) hchain (by simp)
      simp only [List.headD_cons, List.length_cons] at hb
      have hspanle : spanOf (x0 :: xrest) ≤ y.length := by omega
      have hlenxs : (x0 :: xrest).length = y.length := hlen
      simp only [List.length_cons] at hlenxs
      have hn_eq : spanOf (x0 :: xrest) = y.length := by
        simp only [spanOf, List.headD_cons] at hspanle ⊢
        push_cast at hb
        omega
      have hdense := chain_dense (x0 :: xrest) hchain (by simp) (by
        simp only [spanOf, List.headD_cons] at hn_eq
        simp only [List.headD_cons, List.length_cons]
        omega)
      simp only [List.headD_cons, List.length_cons] at hdense
      have hdense2 : x0 :: xrest = dateRange x0 y.length := by
        rw [hdense, hlenxs]
      apply List.ext_get
      · simp [hn_eq]
      · intro i h1 h2
        rw [List.get_map]
        rw [show ((List.range (spanOf (x0 :: xrest))).get
            ⟨i, by simpa using h2⟩) = i from (by simp [List.get_range])]
        rw [show ffillValue ((x0 :: xrest).zip y) (x0 + (i : Int))
            = lastK ((x0 :: xrest).zip y) (x0 + (i : Int)) 0
          from (lastK_eq_ffill _ _ 0).symm]
        rw [hdense2]
        rw [lastK_dense_getD y x0 i h1]
        exact (List.getD_eq_get y 0 h1).symm

/-- Witness for C1 on the sparse input `dates = [0, 2, 5]`,
`values = [1, 2, 3]`: six consecutive days with forward-filled values. -/
theorem seriesInit_sparse_densifies_witness :
    seriesInit [1, 2, 3] (some [0, 2, 5]) none =
      .ok ⟨[0, 1, 2, 3, 4, 5], [1, 1, 2, 2, 2, 3]⟩ :=
  (seriesInit_sparse_densifies [0, 2, 5] [1, 2, 3] (by decide) (by decide)
    (by norm_num [List.chain'_cons])).1.trans rfl
